import Mathlib

/-!
Verification development for the columnar storage engine in `src/main.rs`
(rust-query).  The Rust source is shallowly embedded: byte buffers become
`List Nat` (each entry one byte), machine integers become `Int` with explicit
range predicates, memory-mapped files become their byte contents, and the
stateful block iterators become explicit state-passing functions.  Reads that
the Rust code performs out of bounds of the current block (through raw
pointers) have no value determined by the program state; they are modelled by
`none` in an `Option Int` result.
-/

namespace RustQuery

/-- Little-endian interpretation of a byte list as a natural number.  Models
how the x86 target (native byte order) assembles a multi-byte integer from
consecutive bytes. -/
def leNat : List Nat → Nat
  | [] => 0
  | b :: bs => b + 256 * leNat bs

/-- Reinterpretation of a `w`-byte unsigned value as the signed two's
complement integer of the same width (the value a Rust `i32`/`i64` register
holds for those bytes). -/
def toSigned (w : Nat) (n : Nat) : Int :=
  if n < 2 ^ (8 * w - 1) then (n : Int) else (n : Int) - 2 ^ (8 * w)

/-- Embeds `std::slice::from_raw_parts(ptr as *const T, len / size_of::<T>())`
as used by `Column::raw_values` and `BlockTypedReader::next_block`: a byte
buffer `c` viewed as `c.length / w` typed values, the `i`-th one read from the
`w` consecutive bytes at offset `i * w`; trailing bytes shorter than one value
are dropped. -/
def toValues (w : Nat) (c : List Nat) : List Int :=
  (List.range (c.length / w)).map (fun i => toSigned w (leNat ((c.drop (i * w)).take w)))

/-- `Column::len`: `self.raw_mmap.len() / std::mem::size_of::<T>()`. -/
def columnLen (w : Nat) (c : List Nat) : Nat :=
  c.length / w

/-- `Mmap::open_path(path, Protection::Read)` from the external memmap crate
over POSIX `mmap`: it fails (`Err`) when the file is missing or unreadable
(`none` here), and also when the file's length is zero, because POSIX `mmap`
rejects a zero-length mapping with `EINVAL`.  On success it yields the mapped
bytes. -/
def mmapOpen (file : Option (List Nat)) : Option (List Nat) :=
  match file with
  | none => none
  | some bytes => if bytes.length = 0 then none else some bytes

/-- `Column::new`: memory-maps the raw file and then the compressed file,
each through `.expect(..)`, which panics on a failed map (modelled by
`none`).  Only when both maps succeed does a usable `Column` exist, and only
then can any access mode run. -/
def columnNew (raw comp : Option (List Nat)) : Option (List Nat × List Nat) :=
  match mmapOpen raw with
  | none => none
  | some r =>
    match mmapOpen comp with
    | none => none
    | some c => some (r, c)

/-- `<i32 as Nullable>::null_value()`, i.e. `std::i32::MIN`. -/
def null32 : Int := -(2 ^ 31)

/-- `<i64 as Nullable>::null_value()`, i.e. `std::i64::MIN`. -/
def null64 : Int := -(2 ^ 63)

/-- The null test the queries apply to an `i32` value: the comparison
`v == i32::null_value()` from `Table::query1`/`query2`/`query3`. -/
def isNull32 (v : Int) : Bool := v == null32

/-- The null test the queries apply to an `i64` value: the comparison
`v == i64::null_value()` from `Table::query1`/`query2`/`query3`. -/
def isNull64 (v : Int) : Bool := v == null64

/-- The values an `i32` can represent. -/
def inRange32 (v : Int) : Prop := -(2 ^ 31) ≤ v ∧ v < 2 ^ 31

/-- The values an `i64` can represent. -/
def inRange64 (v : Int) : Prop := -(2 ^ 63) ≤ v ∧ v < 2 ^ 63

instance (v : Int) : Decidable (inRange32 v) := by unfold inRange32; infer_instance

instance (v : Int) : Decidable (inRange64 v) := by unfold inRange64; infer_instance

/-- The loop of `Table::query1`: `for i in 0..n` with `i` starting at the
first argument and the second argument counting the remaining iterations;
the accumulator is `cnt`.  Each iteration indexes both columns at `i`
(`int32_values[i]`, `int64_values[i]`; an out-of-bounds index panics in Rust
and is modelled as leaving the count unchanged — it cannot occur when the
loop bound is within both lengths) and skips the position when either value
equals its type's null sentinel. -/
def q1go (xs ys : List Int) : Nat → Nat → Int → Int
  | _, 0, cnt => cnt
  | i, k + 1, cnt =>
    match xs[i]?, ys[i]? with
    | some a, some b =>
      q1go xs ys (i + 1) k (if isNull32 a then cnt else if isNull64 b then cnt else cnt + 1)
    | _, _ => q1go xs ys (i + 1) k cnt

/-- `Table::query1`: counts over `n = int32_column.len()` positions. -/
def query1count (xs ys : List Int) : Int :=
  q1go xs ys 0 xs.length 0

/-- `Table::query2`: `zip` of the two whole-buffer views, filtered on both
values being non-null, then counted. -/
def query2count (xs ys : List Int) : Nat :=
  ((xs.zip ys).filter (fun p => !isNull32 p.1 && !isNull64 p.2)).length

/-- Specification-side count, following the spec's words: the number of
positions at which neither column's value equals its type's null sentinel
(positional zip of two equal-length columns).  To be compared with
`query1count`, which is translated from the code. -/
def countNonNullSpec (xs ys : List Int) : Nat :=
  (xs.zip ys).countP (fun p => !isNull32 p.1 && !isNull64 p.2)

/-- State of a `RawValuesIterator<R, T>` together with its inner
`BlockTypedReader`.  `chunks` is the sequence of byte buffers the underlying
`BufRead` source will still hand out through `fill_buf` (one list entry per
`fill_buf` result; the sources used — a file and the framed-snappy decoder —
return an empty buffer exactly at end of stream, which is modelled by the end
of the list).  `block` is the typed slice produced from the current chunk,
`idx` the offset of `next_value_ptr` inside it in values, and `rem` the
`remaining_values` field. -/
structure IterState where
  chunks : List (List Nat)
  block : List Int
  idx : Nat
  rem : Nat

/-- `BlockTypedReader::next_block` for value width `w`: consume the previous
buffer, take the next `fill_buf` result, signal exhaustion (`None`) if it has
zero bytes, and otherwise reinterpret it as a typed slice of
`bytes / size_of::<T>()` values. -/
def nextBlock (w : Nat) : List (List Nat) → Option (List Int × List (List Nat))
  | [] => none
  | c :: rest => if c.length = 0 then none else some (toValues w c, rest)

/-- One call of `<RawValuesIterator as Iterator>::next`.  The first component
is the call's result: `none` when the iterator returns `None` (source
exhausted), and `some r` when it returns `Some(*next_value_ptr)` — where `r`
is `some v` if the dereferenced pointer lies inside the current typed block
and `none` if the code dereferences out of bounds (past the block's last
value, or the base pointer of an empty block), which reads memory whose
content the program state does not determine.  Mirrors the source: on refill
it sets `remaining_values` to the whole block length and yields the block's
first value; otherwise it first decrements `remaining_values`, advances the
pointer by one value, and yields. -/
def call (w : Nat) (s : IterState) : Option (Option Int) × IterState :=
  if s.rem = 0 then
    match nextBlock w s.chunks with
    | none => (none, s)
    | some (tb, rest) => (some tb[0]?, ⟨rest, tb, 0, tb.length⟩)
  else
    (some s.block[s.idx + 1]?, ⟨s.chunks, s.block, s.idx + 1, s.rem - 1⟩)

/-- The result of the `(n + 1)`-st call on an iterator in state `s`. -/
def callN (w : Nat) : Nat → IterState → Option (Option Int) × IterState
  | 0, s => call w s
  | n + 1, s => callN w n (call w s).2

/-- `RawValuesIterator::new`: null `next_value_ptr`, `remaining_values = 0`. -/
def initState (chunks : List (List Nat)) : IterState :=
  ⟨chunks, [], 0, 0⟩

/-- The sequence of values produced by repeatedly calling the iterator until
it returns `None`, with an explicit fuel bound on the number of calls. -/
def runFuel (w : Nat) : Nat → IterState → List (Option Int)
  | 0, _ => []
  | n + 1, s =>
    match call w s with
    | (none, _) => []
    | (some v, s') => v :: runFuel w n s'

/-- Fuel sufficient to drive the iterator to exhaustion: each produced value
strictly decreases `measureF` below. -/
def iterFuel (w : Nat) (chunks : List (List Nat)) : Nat :=
  (chunks.map (fun c => c.length / w + 1)).sum + 1

/-- The complete output of a `RawValuesIterator` over the given source
chunks.  `runIter_fuel_indep` below shows the fuel does not truncate it. -/
def runIter (w : Nat) (chunks : List (List Nat)) : List (Option Int) :=
  runFuel w (iterFuel w chunks) (initState chunks)

/-- Termination measure for the iterator: remaining values of the current
block plus, for every pending chunk, its value count and one refill step. -/
def measureF (w : Nat) (s : IterState) : Nat :=
  s.rem + (s.chunks.map (fun c => c.length / w + 1)).sum

/-- The nonnegative two's complement representative of a signed value of
width `w` bytes — the bit pattern `raw_bytes` exposes. -/
def toUnsigned (w : Nat) (v : Int) : Nat :=
  (v % (2 ^ (8 * w) : Int)).toNat

/-- The `w` bytes of an unsigned value in little-endian (native) order. -/
def natToBytesLE : Nat → Nat → List Nat
  | 0, _ => []
  | w + 1, n => n % 256 :: natToBytesLE w (n / 256)

/-- `raw_bytes(&val)` on the x86 target: the `w` bytes of the value's two's
complement representation in native (little-endian) order. -/
def encodeValue (w : Nat) (v : Int) : List Nat :=
  natToBytesLE w (toUnsigned w v)

/-- `<ThreadRngRandomGenerator as RandomGenerator<i32>>::generate_next`:
`(self.rng.next_u32() as i32) % 1_000`, applied to the `u32` the rng
returned.  Rust's `%` is the truncated remainder, `Int.tmod`. -/
def gen32 (r : Nat) : Int :=
  (toSigned 4 r).tmod 1000

/-- `<ThreadRngRandomGenerator as RandomGenerator<i64>>::generate_next`:
`(self.rng.next_u64() as i64) % 1_000_000`. -/
def gen64 (r : Nat) : Int :=
  (toSigned 8 r).tmod 1000000

/-- One loop iteration of `generate_random_column`: a draw is the pair of
the outcome of `rng.next_f32() < null_probability` and the raw unsigned
random number the per-type generator would consume; the written value is the
null sentinel on a null draw and the generated value otherwise. -/
def drawValue (nullVal : Int) (gen : Nat → Int) (d : Bool × Nat) : Int :=
  if d.1 then nullVal else gen d.2

/-- The on-disk state of one column: the raw `.bin` file and the compressed
`.bin.snappy` file (`none` when the file does not exist). -/
structure ColumnFiles where
  raw : Option (List Nat)
  comp : Option (List Nat)

/-- `ColumnGenerator::generate_random_column` followed by its call to
`compress_values`, with the snappy encoder abstracted as the opaque
byte-level codec `enc`.  `File::create` truncates unconditionally, so the
previous file state `fs` is never read: the raw file is rewritten with the
encoding of the drawn values, and the compressed file is rewritten with the
encoding of the raw file just written. -/
def generate (enc : List Nat → List Nat) (w : Nat) (nullVal : Int) (gen : Nat → Int)
    (draws : List (Bool × Nat)) (fs : ColumnFiles) : ColumnFiles :=
  let _ := fs
  let raw := (draws.map (fun d => encodeValue w (drawValue nullVal gen d))).flatten
  { raw := some raw, comp := some (enc raw) }

/-- `ColumnGenerator::<i32>::generate_random_column`. -/
def generateColumn32 (enc : List Nat → List Nat) (draws : List (Bool × Nat))
    (fs : ColumnFiles) : ColumnFiles :=
  generate enc 4 null32 gen32 draws fs

/-- `ColumnGenerator::<i64>::generate_random_column`. -/
def generateColumn64 (enc : List Nat → List Nat) (draws : List (Bool × Nat))
    (fs : ColumnFiles) : ColumnFiles :=
  generate enc 8 null64 gen64 draws fs

lemma toValues_length (w : Nat) (c : List Nat) : (toValues w c).length = c.length / w := by
  simp [toValues]

lemma call_measure_lt (w : Nat) (s : IterState) (v : Option Int) (s' : IterState)
    (h : call w s = (some v, s')) : measureF w s' < measureF w s := by
  unfold call at h
  by_cases hr : s.rem = 0
  · rw [if_pos hr] at h
    cases hc : s.chunks with
    | nil => rw [hc] at h; simp [nextBlock] at h
    | cons c rest =>
      rw [hc] at h
      by_cases hlen : c.length = 0
      · simp [nextBlock, hlen] at h
      · simp only [nextBlock, hlen, if_neg, ite_false] at h
        obtain ⟨-, hs⟩ := Prod.mk.injEq .. ▸ h
        have hs' : s' = ⟨rest, toValues w c, 0, (toValues w c).length⟩ := by
          cases h; rfl
        subst hs'
        simp [measureF, hr, hc, toValues_length]
  · rw [if_neg hr] at h
    have hs' : s' = ⟨s.chunks, s.block, s.idx + 1, s.rem - 1⟩ := by
      cases h; rfl
    subst hs'
    simp only [measureF]
    omega

lemma runFuel_stable (w : Nat) :
    ∀ (f g : Nat) (s : IterState), measureF w s < f → measureF w s < g →
      runFuel w f s = runFuel w g s := by
  intro f
  induction f with
  | zero => intro g s hf _; omega
  | succ f ih =>
    intro g s hf hg
    cases g with
    | zero => omega
    | succ g =>
      simp only [runFuel]
      cases hc : call w s with
      | mk r s' =>
        cases r with
        | none => rfl
        | some v =>
          have hlt := call_measure_lt w s v s' hc
          have h2 : runFuel w f s' = runFuel w g s' := ih g s' (by omega) (by omega)
          show v :: runFuel w f s' = v :: runFuel w g s'
          rw [h2]

lemma runIter_fuel_indep (w : Nat) (chunks : List (List Nat)) (f : Nat)
    (h : iterFuel w chunks ≤ f) :
    runFuel w f (initState chunks) = runIter w chunks := by
  have hm : measureF w (initState chunks) + 1 = iterFuel w chunks := by
    simp [measureF, initState, iterFuel]
  exact runFuel_stable w f (iterFuel w chunks) (initState chunks) (by omega) (by omega)

lemma call_none_eq (w : Nat) (s : IterState) (h : (call w s).1 = none) :
    call w s = (none, s) := by
  unfold call at h ⊢
  by_cases hr : s.rem = 0
  · rw [if_pos hr] at h ⊢
    cases hnb : nextBlock w s.chunks with
    | none => rfl
    | some p =>
      obtain ⟨tb, rest⟩ := p
      rw [hnb] at h
      simp at h
  · rw [if_neg hr] at h
    simp at h

lemma q1go_shift (x y : Int) (xs ys : List Int) :
    ∀ (k i : Nat) (c : Int), q1go (x :: xs) (y :: ys) (i + 1) k c = q1go xs ys i k c := by
  intro k
  induction k with
  | zero => intro i c; rfl
  | succ k ih =>
    intro i c
    cases h1 : xs[i]? <;> cases h2 : ys[i]? <;>
      simp only [q1go, List.getElem?_cons_succ, h1, h2] <;>
      exact ih (i + 1) _

lemma q1go_acc (xs ys : List Int) :
    ∀ (k i : Nat) (c d : Int), q1go xs ys i k (c + d) = c + q1go xs ys i k d := by
  intro k
  induction k with
  | zero => intro i c d; rfl
  | succ k ih =>
    intro i c d
    cases h1 : xs[i]? <;> cases h2 : ys[i]? <;> simp only [q1go, h1, h2] <;>
      first
        | exact ih (i + 1) c d
        | (rename_i a b
           by_cases ha : isNull32 a = true <;> by_cases hb : isNull64 b = true <;>
             simp only [ha, hb, if_true, if_false]
           · exact ih (i + 1) c d
           · exact ih (i + 1) c d
           · exact ih (i + 1) c d
           · have e : c + d + 1 = c + (d + 1) := by ring
             rw [e]
             exact ih (i + 1) c (d + 1))

lemma query1count_eq (xs : List Int) : ∀ ys : List Int, xs.length = ys.length →
    query1count xs ys = (countNonNullSpec xs ys : Int) := by
  induction xs with
  | nil =>
    intro ys h
    have hy : ys = [] := List.length_eq_zero.mp h.symm
    subst hy
    rfl
  | cons x xs ih =>
    intro ys h
    cases ys with
    | nil => simp at h
    | cons y ys =>
      have hlen : xs.length = ys.length := by simpa using h
      show q1go (x :: xs) (y :: ys) 0 (x :: xs).length 0 = _
      simp only [List.length_cons, q1go, List.getElem?_cons_zero]
      rw [show (0 : Nat) + 1 = 0 + 1 from rfl]
      rw [q1go_shift x y xs ys xs.length 0]
      have hacc : ∀ c : Int, q1go xs ys 0 xs.length c = c + q1go xs ys 0 xs.length 0 := by
        intro c
        have := q1go_acc xs ys xs.length 0 c 0
        simpa using this
      rw [hacc]
      have hq : q1go xs ys 0 xs.length 0 = (countNonNullSpec xs ys : Int) := ih ys hlen
      rw [hq]
      simp only [countNonNullSpec, List.zip_cons_cons, List.countP_cons]
      by_cases hx : isNull32 x = true <;> by_cases hy : isNull64 y = true <;>
        simp [hx, hy] <;> omega

lemma tmod_bounds (a : Int) (n : Nat) (h : 0 < n) :
    -(n : Int) < a.tmod n ∧ a.tmod n < n := by
  constructor
  · cases a with
    | ofNat m =>
      have h1 : (0 : Int) ≤ (Int.ofNat m).tmod n := Int.tmod_nonneg _ (Int.ofNat_nonneg m)
      have h2 : (0 : Int) < (n : Int) := by exact_mod_cast h
      omega
    | negSucc m =>
      have e : (Int.negSucc m).tmod (n : Int) = -(((m + 1) % n : Nat) : Int) := rfl
      rw [e]
      have h3 : (m + 1) % n < n := Nat.mod_lt _ h
      omega
  · exact Int.tmod_lt_of_pos a (by exact_mod_cast h)

/-- Claim C1.  The claim states that for a column pair whose compressed files
decompress to the raw bytes, `query1`, `query2` and `query3` count the same.
The code violates it: `RawValuesIterator::next` sets `remaining_values` to
the whole block length on refill although it already yields the block's first
value, so each block produces one extra element read out of bounds
(`none` in the model).  At the failing input — an `i32` column `[5]` and an
`i64` column `[7]`, each delivered as one decompressed block — `query1` and
`query2` count 1, while `query3` zips the streams `[5, ⊥]` and `[7, ⊥]`
(`⊥` an out-of-bounds read) and filters 2 pairs, one of which compares
unspecified memory against the null sentinels. -/
theorem claim_C1 :
    query1count [5] [7] = 1
    ∧ query2count [5] [7] = 1
    ∧ runIter 4 [[5, 0, 0, 0]] = [some 5, none]
    ∧ runIter 8 [[7, 0, 0, 0, 0, 0, 0, 0]] = [some 7, none]
    ∧ ((runIter 4 [[5, 0, 0, 0]]).zip (runIter 8 [[7, 0, 0, 0, 0, 0, 0, 0]])).length = 2 := by
  decide

/-- Claim C2.  The claim states that the block value-iterator yields exactly
the reinterpretation of the concatenated bytes, independently of the block
partition.  The code violates it (same off-by-one as in C1): for the bytes
of `[1, 2]` the reinterpretation is `[1, 2]`, but delivered as one block the
iterator yields 3 elements and delivered as two one-value blocks it yields 4,
interleaving out-of-bounds reads. -/
theorem claim_C2 :
    toValues 4 [1, 0, 0, 0, 2, 0, 0, 0] = [1, 2]
    ∧ runIter 4 [[1, 0, 0, 0, 2, 0, 0, 0]] = [some 1, some 2, none]
    ∧ runIter 4 [[1, 0, 0, 0], [2, 0, 0, 0]] = [some 1, none, some 2, none] := by
  decide

/-- Claim C6.  The claim states that a refill obtaining a zero-length block
repeats the refill step and yields nothing for it.  The code violates it: a
block holding zero whole values (here a 2-byte chunk at width 4) makes
`RawValuesIterator::next` dereference the empty typed slice's base pointer
and yield one unspecified out-of-bounds value (`none` in the model) before
the following call refills; the output for `[[0,0],[1,0,0,0]]` therefore has
an extra element compared to `[[1,0,0,0]]` alone. -/
theorem claim_C6 :
    runIter 4 [[0, 0], [1, 0, 0, 0]] = [none, some 1, none]
    ∧ (runIter 4 [[0, 0], [1, 0, 0, 0]]).length ≠ (runIter 4 [[1, 0, 0, 0]]).length := by
  decide

/-- Claim C3, counterexample.  The claim states that an existing raw file is
not overwritten.  `generate_random_column` calls `File::create`, which
truncates: starting from a raw file `[9,9,9,9]`, generating one non-null
value `1` leaves the raw file holding the new bytes, not the old ones. -/
theorem claim_C3_cex :
    (generateColumn32 id [(false, 1)] ⟨some [9, 9, 9, 9], none⟩).raw ≠ some [9, 9, 9, 9] := by
  decide

/-- Claim C3, amended: `generate_random_column` always rewrites the raw file
regardless of the previous on-disk state (its result does not depend on it),
and in every case the compressed file is (re)produced — via the codec — from
exactly the raw file present after the generation step. -/
theorem claim_C3 (enc : List Nat → List Nat) (w : Nat) (nv : Int) (g : Nat → Int)
    (draws : List (Bool × Nat)) (fs fs2 : ColumnFiles) :
    generate enc w nv g draws fs = generate enc w nv g draws fs2
    ∧ (generate enc w nv g draws fs).comp = (generate enc w nv g draws fs).raw.map enc :=
  ⟨rfl, rfl⟩

/-- Claim C4: for each supported type the null sentinel is the type's minimum
representable value (`-2^31` for i32, `-2^63` for i64), the sentinel itself
tests as null, and every other representable value tests as non-null. -/
theorem claim_C4 :
    (null32 = -(2 ^ 31) ∧ null64 = -(2 ^ 63)
      ∧ inRange32 null32 ∧ inRange64 null64
      ∧ isNull32 null32 = true ∧ isNull64 null64 = true)
    ∧ (∀ v : Int, inRange32 v → null32 ≤ v ∧ (v ≠ null32 → isNull32 v = false))
    ∧ (∀ v : Int, inRange64 v → null64 ≤ v ∧ (v ≠ null64 → isNull64 v = false)) := by
  refine ⟨⟨rfl, rfl, by decide, by decide, by decide, by decide⟩, ?_, ?_⟩
  · intro v hv
    refine ⟨hv.1, fun hne => ?_⟩
    simp only [isNull32, beq_eq_false_iff_ne]
    exact hne
  · intro v hv
    refine ⟨hv.1, fun hne => ?_⟩
    simp only [isNull64, beq_eq_false_iff_ne]
    exact hne

/-- Witness for C4 at concrete inputs. -/
theorem claim_C4_witness : isNull32 7 = false ∧ isNull64 5 = false :=
  ⟨(claim_C4.2.1 7 (by decide)).2 (by decide), (claim_C4.2.2 5 (by decide)).2 (by decide)⟩

/-- Claim C5: for equal-length columns, `query1` returns exactly the number
of positions at which neither value equals its type's null sentinel, and on
the concrete pair `[null, 5, null]` / `[7, null, 9]` the count is 0. -/
theorem claim_C5 :
    (∀ xs ys : List Int, xs.length = ys.length →
      query1count xs ys = (countNonNullSpec xs ys : Int))
    ∧ query1count [null32, 5, null32] [7, null64, 9] = 0 :=
  ⟨fun xs ys h => query1count_eq xs ys h, by decide⟩

/-- Witness for C5 at a concrete column pair. -/
theorem claim_C5_witness :
    query1count [5, null32] [null64, 7] = (countNonNullSpec [5, null32] [null64, 7] : Int) :=
  claim_C5.1 [5, null32] [null64, 7] rfl

/-- Claim C7: once a call of the block value-iterator signals exhaustion
(returns `None`), every subsequent call on the same iterator state also
signals exhaustion. -/
theorem claim_C7 (w : Nat) (s : IterState) (h : (call w s).1 = none) :
    ∀ n : Nat, (callN w n s).1 = none := by
  have hfix : call w s = (none, s) := call_none_eq w s h
  intro n
  induction n with
  | zero => simpa [callN] using h
  | succ n ih =>
    simp only [callN, hfix]
    exact ih

/-- Witness for C7: an iterator over an exhausted (empty) source keeps
signalling exhaustion. -/
theorem claim_C7_witness : (callN 4 3 (initState [])).1 = none :=
  claim_C7 4 (initState []) (by decide) 3

/-- Claim C8: `element_count` is `⌊raw_byte_length / w⌋`, the whole-buffer
view has exactly that many values, the `i`-th reconstructed from the `w`
consecutive bytes at offset `i * w` in native byte order, and trailing bytes
shorter than one value are silently dropped. -/
theorem claim_C8 (w : Nat) (hw : 0 < w) (c : List Nat) :
    columnLen w c = c.length / w
    ∧ (toValues w c).length = c.length / w
    ∧ (∀ i : Nat, i < c.length / w →
        (toValues w c)[i]? = some (toSigned w (leNat ((c.drop (i * w)).take w))))
    ∧ toValues w c = toValues w (c.take (c.length / w * w)) := by
  refine ⟨rfl, toValues_length w c, ?_, ?_⟩
  · intro i hi
    simp [toValues, List.getElem?_range hi]
  · have hle : c.length / w * w ≤ c.length := Nat.div_mul_le_self _ _
    have hlen : (c.take (c.length / w * w)).length = c.length / w * w := by
      simp only [List.length_take]
      omega
    have hq : (c.take (c.length / w * w)).length / w = c.length / w := by
      rw [hlen, Nat.mul_div_cancel _ hw]
    unfold toValues
    rw [hq]
    apply List.map_congr_left
    intro i hmem
    have hi : i < c.length / w := List.mem_range.mp hmem
    have h1 : i * w + 1 * w ≤ c.length / w * w := by
      rw [← Nat.add_mul]
      exact Nat.mul_le_mul_right _ hi
    rw [List.drop_take, List.take_take]
    have hmin : w ⊓ (c.length / w * w - i * w) = w := by omega
    rw [hmin]

/-- Witness for C8 at a concrete buffer with a trailing byte. -/
theorem claim_C8_witness :
    (toValues 4 [1, 0, 0, 0, 9])[0]? = some (toSigned 4 (leNat [1, 0, 0, 0]))
    ∧ toValues 4 [1, 0, 0, 0, 9] = toValues 4 [1, 0, 0, 0] := by
  have h := claim_C8 4 (by decide) [1, 0, 0, 0, 9]
  exact ⟨h.2.2.1 0 (by decide), h.2.2.2⟩

/-- Claim C9, counterexample.  The claim states that the empty-column
scenario runs without raising any error, but `Column::new` cannot even open
an empty column: memory-mapping the zero-length raw file fails (POSIX `mmap`
rejects a zero-length mapping), so the `.expect` panics before any access
mode runs.  Here the compressed counterpart holds the framed-snappy stream
identifier that compressing an empty raw file produces. -/
theorem claim_C9_cex :
    columnNew (some []) (some [255, 6, 0, 0, 115, 78, 97, 80, 112, 89]) = none := by
  decide

/-- Claim C9, amended: opening an empty column (`n = 0`, zero-length raw
file) fails at memory-map time — `Column::new` panics whatever the
compressed file holds, so no access mode runs.  The access-mode computations
themselves, applied to zero-length content, do yield zero elements and count
0 without any further error: the whole-buffer view of zero bytes is empty,
the raw and compressed block iterators over an empty stream yield no values,
and the counting queries over a pair of empty columns return 0. -/
theorem claim_C9 :
    (∀ comp : Option (List Nat), columnNew (some []) comp = none)
    ∧ columnLen 4 [] = 0 ∧ toValues 4 [] = [] ∧ toValues 8 [] = []
    ∧ runIter 4 [] = [] ∧ runIter 8 [] = []
    ∧ query1count [] [] = 0 ∧ query2count [] [] = 0 ∧ countNonNullSpec [] [] = 0
    ∧ ((runIter 4 []).zip (runIter 8 [])).length = 0 := by
  refine ⟨fun comp => rfl, ?_⟩
  decide

/-- Claim C10: every non-null value the generator writes is a truncated
remainder (`-999..999` for i32, `-999999..999999` for i64), hence strictly
inside the type's range and never equal to the null sentinel; consequently a
written value equals the sentinel exactly when the null branch was drawn. -/
theorem claim_C10 :
    (∀ r : Nat, r < 2 ^ 32 → (-999 ≤ gen32 r ∧ gen32 r ≤ 999) ∧ gen32 r ≠ null32)
    ∧ (∀ r : Nat, r < 2 ^ 64 → (-999999 ≤ gen64 r ∧ gen64 r ≤ 999999) ∧ gen64 r ≠ null64)
    ∧ (∀ (b : Bool) (r : Nat), r < 2 ^ 32 →
        (drawValue null32 gen32 (b, r) = null32 ↔ b = true))
    ∧ (∀ (b : Bool) (r : Nat), r < 2 ^ 64 →
        (drawValue null64 gen64 (b, r) = null64 ↔ b = true)) := by
  have key32 : ∀ r : Nat, (-999 ≤ gen32 r ∧ gen32 r ≤ 999) ∧ gen32 r ≠ null32 := by
    intro r
    have hb := tmod_bounds (toSigned 4 r) 1000 (by norm_num)
    have hlo : -(1000 : Int) < (toSigned 4 r).tmod 1000 := by exact_mod_cast hb.1
    have hhi : (toSigned 4 r).tmod 1000 < 1000 := by exact_mod_cast hb.2
    have hn : null32 = -2147483648 := by norm_num [null32]
    unfold gen32
    refine ⟨⟨by omega, by omega⟩, fun he => ?_⟩
    omega
  have key64 : ∀ r : Nat, (-999999 ≤ gen64 r ∧ gen64 r ≤ 999999) ∧ gen64 r ≠ null64 := by
    intro r
    have hb := tmod_bounds (toSigned 8 r) 1000000 (by norm_num)
    have hlo : -(1000000 : Int) < (toSigned 8 r).tmod 1000000 := by exact_mod_cast hb.1
    have hhi : (toSigned 8 r).tmod 1000000 < 1000000 := by exact_mod_cast hb.2
    have hn : null64 = -9223372036854775808 := by norm_num [null64]
    unfold gen64
    refine ⟨⟨by omega, by omega⟩, fun he => ?_⟩
    omega
  refine ⟨fun r _ => key32 r, fun r _ => key64 r, ?_, ?_⟩
  · intro b r _
    cases b with
    | true => simp [drawValue]
    | false => simp [drawValue]; exact (key32 r).2
  · intro b r _
    cases b with
    | true => simp [drawValue]
    | false => simp [drawValue]; exact (key64 r).2

/-- Witness for C10 at concrete generator inputs. -/
theorem claim_C10_witness :
    (-999 ≤ gen32 5 ∧ gen32 5 ≤ 999) ∧ drawValue null32 gen32 (true, 5) = null32 :=
  ⟨(claim_C10.1 5 (by decide)).1, (claim_C10.2.2.1 true 5 (by decide)).mpr rfl⟩

end RustQuery
